import Mathlib

/-!
# qfluent-ops: the request-forwarding and credential-rotation pipeline

A shallow embedding of `cmd/proxy/proxyHandler.go` (`getClientIP`,
`writeCharByChar`, `ProxyHandler` and the process-wide `keyIndex` table) together
with the properties of it that the specification states.

Conventions of the embedding:

* a Go `string` / `[]byte` is a list of bytes, each byte a natural number
  (`GoString`); `len` is `List.length`, and a slice expression that is out of
  range is a run-time panic, which the model makes explicit;
* a Go `int` that the program only ever uses as a non-negative index is a `Nat`;
* the standard library (`net/http`, `sync.Map`, `bufio`, `unicode/utf8`) is
  modelled from its documented behaviour, each piece next to its first use;
* the network (`http.NewRequest`, `http.DefaultClient.Do`) is a parameter.
-/

namespace Proxy

/-! ## Strings -/

/-- A Go string: a sequence of bytes. -/
abbrev GoString := List Nat

/-- The bytes of an ASCII literal of the source. -/
def ascii (s : String) : GoString := s.data.map Char.toNat

/-- Go `s[:n]`: panics (`none`) unless `n ≤ len(s)`. -/
def sliceTo (s : GoString) (n : Nat) : Option GoString :=
  if n ≤ s.length then some (s.take n) else none

/-- Go `s[n:]`: panics (`none`) unless `n ≤ len(s)`. -/
def sliceFrom (s : GoString) (n : Nat) : Option GoString :=
  if n ≤ s.length then some (s.drop n) else none

/-! ## Go maps with string keys -/

/-- The value of a key in a map given by its entries (the first entry of a key is the
live one). -/
def lookupKey {β : Type} : List (GoString × β) → GoString → Option β
  | [], _ => none
  | (k, v) :: rest, key => if k = key then some v else lookupKey rest key

/-- The entries without those of a key. -/
def eraseKey {β : Type} : List (GoString × β) → GoString → List (GoString × β)
  | [], _ => []
  | (k, v) :: rest, key =>
    if k = key then eraseKey rest key else (k, v) :: eraseKey rest key

/-! ## `sync.Map` and the rotation table `keyIndex` -/

/-- The `sync.Map` held in `keyIndex`: token ↦ index of the next key. The stored values
are always Go `int`s that are non-negative, hence `Nat`. The first entry for a key is
the live one. -/
structure SyncMap where
  entries : List (GoString × Nat)
deriving DecidableEq

/-- `sync.Map.Load`. -/
def SyncMap.Load (m : SyncMap) (key : GoString) : Option Nat :=
  lookupKey m.entries key

/-- `sync.Map.Store`: sets the value for a key. -/
def SyncMap.Store (m : SyncMap) (key : GoString) (value : Nat) : SyncMap :=
  ⟨(key, value) :: eraseKey m.entries key⟩

/-- `sync.Map.LoadOrStore`: the existing value for the key if present; otherwise it
stores and returns the given value. (The `loaded` flag is discarded by the caller.) -/
def SyncMap.LoadOrStore (m : SyncMap) (key : GoString) (value : Nat) : Nat × SyncMap :=
  match m.Load key with
  | some v => (v, m)
  | none => (value, m.Store key value)

/-- A fresh table: `var keyIndex sync.Map`. -/
def SyncMap.empty : SyncMap := ⟨[]⟩

/-- The rotation step of `ProxyHandler` (lines 74-78) for a pool of `poolSize` keys:
`index, _ := keyIndex.LoadOrStore(token, 0)`, the index is used,
`keyIndex.Store(token, (index + 1) % len(keys))`. Returns the issued index and the
table afterwards. The use of the index in between, `keys[index]` at line 75, panics for
an index outside the pool (so for an empty pool); `ProxyHandler` below carries that
panic, and the step is meant for a pool of at least one key. -/
def rotationDraw (keyIndex : SyncMap) (token : GoString) (poolSize : Nat) :
    Nat × SyncMap :=
  let loaded := keyIndex.LoadOrStore token 0
  let index := loaded.1
  let nextIndex := (index + 1) % poolSize
  (index, loaded.2.Store token nextIndex)

/-- A sequence of rotation draws, each for a token with that token's pool size, executed
one after the other. Returns the issued `(token, index)` pairs in order, and the
table afterwards. -/
def runDraws : SyncMap → List (GoString × Nat) → List (GoString × Nat) × SyncMap
  | m, [] => ([], m)
  | m, (token, poolSize) :: rest =>
    let d := rotationDraw m token poolSize
    let r := runDraws d.2 rest
    ((token, d.1) :: r.1, r.2)

/-- The indices issued to `token`, in order. -/
def issuedTo (token : GoString) (issued : List (GoString × Nat)) : List Nat :=
  (issued.filter (fun e => decide (e.1 = token))).map Prod.snd

/-- The number of draws for `token` in a schedule. -/
def drawsFor (token : GoString) (sched : List (GoString × Nat)) : Nat :=
  (sched.filter (fun e => decide (e.1 = token))).length

/-! ## `http.Header` -/

/-- The `validHeaderFieldByte` table of `net/textproto`: the token characters of RFC 7230. -/
def validHeaderFieldByte (c : Nat) : Bool :=
  (48 ≤ c && c ≤ 57) || (65 ≤ c && c ≤ 90) || (97 ≤ c && c ≤ 122) ||
    [33, 35, 36, 37, 38, 39, 42, 43, 45, 46, 94, 95, 96, 124, 126].contains c

/-- The canonicalising loop of `textproto.canonicalMIMEHeaderKey`: upper case for the
first letter and for a letter after a hyphen, lower case elsewhere. -/
def canonicalLoop : Bool → GoString → GoString
  | _, [] => []
  | upper, c :: rest =>
    let c2 := if upper && 97 ≤ c && c ≤ 122 then c - 32
              else if !upper && 65 ≤ c && c ≤ 90 then c + 32 else c
    c2 :: canonicalLoop (c2 == 45) rest

/-- `textproto.CanonicalMIMEHeaderKey`: a key with a byte that is not a header field byte
is returned unchanged. -/
def CanonicalMIMEHeaderKey (s : GoString) : GoString :=
  if s.all validHeaderFieldByte then canonicalLoop true s else s

/-- `http.Header`, a `map[string][]string`. -/
structure Header where
  entries : List (GoString × List GoString)
deriving DecidableEq

/-- `Header.Get`: the first value of the canonicalised key, `""` when there is none. -/
def Header.Get (h : Header) (key : GoString) : GoString :=
  match lookupKey h.entries (CanonicalMIMEHeaderKey key) with
  | some (v :: _) => v
  | _ => []

/-- `Header.Set`: the canonicalised key gets the single value. -/
def Header.Set (h : Header) (key value : GoString) : Header :=
  ⟨(CanonicalMIMEHeaderKey key, [value]) :: eraseKey h.entries (CanonicalMIMEHeaderKey key)⟩

/-- `Header.Del`: deletes the values of the canonicalised key. -/
def Header.Del (h : Header) (key : GoString) : Header :=
  ⟨eraseKey h.entries (CanonicalMIMEHeaderKey key)⟩

/-! ## Requests, configuration, upstream -/

/-- The fields of the inbound `*http.Request` that the handler reads. -/
structure Request where
  Method : GoString
  RequestURI : GoString
  RawQuery : GoString
  Header : Header
  RemoteAddr : GoString
  Body : GoString
deriving DecidableEq

/-- Modelled from the spec: the type `config.OpenAIConfig` (package `config` is not among
the sources): a mapping virtual token ↦ ordered key list, an optional base-URL override
and an optional telemetry-relay credential, the last two empty when absent. -/
structure OpenAIConfig where
  Keys : List (GoString × List GoString)
  BaseURL : GoString
  Helicone : GoString
deriving DecidableEq

/-- The request built by `http.NewRequest` and handed to `http.DefaultClient.Do`. -/
structure OutRequest where
  Method : GoString
  URL : GoString
  RawQuery : GoString
  Header : Header
  Body : GoString
deriving DecidableEq

/-- The body of the upstream response as the relay reads it: the bytes delivered, then
either a clean end of stream (`err = none`, Go `io.EOF`) or a read error with the given
`Error()` text. -/
structure BodyStream where
  data : GoString
  err : Option GoString
deriving DecidableEq

/-- The fields of the upstream `*http.Response` that the handler reads. -/
structure Response where
  StatusCode : Nat
  Body : BodyStream
deriving DecidableEq

/-- The network: whether `http.NewRequest(method, url, body)` returns an error, and what
`http.DefaultClient.Do` returns (`none`: an error). -/
structure Upstream where
  NewRequestFails : GoString → GoString → Bool
  Do : OutRequest → Option Response

/-! ## The client-facing `http.ResponseWriter` -/

/-- What the handler does on the body of the client response. -/
inductive Event where
  | write (buf : GoString)
  | flush
deriving DecidableEq

/-- The response sink: the status code committed to the client (`none` while no header
has been written) and the `Write` / `Flush` calls so far. The header map of the
response is not modelled. -/
structure ResponseWriter where
  status : Option Nat
  events : List Event
deriving DecidableEq

/-- `w.WriteHeader(code)`: only the first call takes effect. The status codes are taken
to be in `100..999`; `net/http` panics on a code outside that range. -/
def ResponseWriter.WriteHeader (w : ResponseWriter) (code : Nat) : ResponseWriter :=
  match w.status with
  | some _ => w
  | none => { w with status := some code }

/-- `w.Write(buf)`: writes the header with status 200 first if none was written. -/
def ResponseWriter.Write (w : ResponseWriter) (buf : GoString) : ResponseWriter :=
  let w1 := w.WriteHeader 200
  { w1 with events := w1.events ++ [Event.write buf] }

/-- `w.(http.Flusher).Flush()`: writes the header with status 200 first if none was written. -/
def ResponseWriter.Flush (w : ResponseWriter) : ResponseWriter :=
  let w1 := w.WriteHeader 200
  { w1 with events := w1.events ++ [Event.flush] }

/-- `http.Error(w, error, code)`: `w.WriteHeader(code)` then `fmt.Fprintln(w, error)`. -/
def httpError (w : ResponseWriter) (error : GoString) (code : Nat) : ResponseWriter :=
  (w.WriteHeader code).Write (error ++ [10])

/-- The byte slices written to the client, in order. -/
def writes : List Event → List GoString
  | [] => []
  | Event.write buf :: rest => buf :: writes rest
  | Event.flush :: rest => writes rest

/-- How a run of the code ends: it returns, it panics, or the model ran out of fuel. -/
inductive Outcome where
  | returned
  | panicked
  | unfinished
deriving DecidableEq

/-! ## `unicode/utf8` and `bufio.Reader.ReadRune` -/

/-- `utf8.RuneError`, U+FFFD. -/
def RuneError : Nat := 0xFFFD

/-- `utf8.MaxRune`. -/
def MaxRune : Nat := 0x10FFFF

/-- The table `first` of `unicode/utf8`: information about the first byte of an encoding.
`0xF0` (`as`) is ASCII, `0xF1` (`xx`) is invalid; otherwise the low three bits are the
size and the high four bits index `acceptRanges`. Values that are not bytes are invalid. -/
def first (p0 : Nat) : Nat :=
  if p0 < 0x80 then 0xF0
  else if p0 < 0xC2 then 0xF1
  else if p0 < 0xE0 then 0x02
  else if p0 = 0xE0 then 0x13
  else if p0 < 0xED then 0x03
  else if p0 = 0xED then 0x23
  else if p0 < 0xF0 then 0x03
  else if p0 = 0xF0 then 0x34
  else if p0 < 0xF4 then 0x04
  else if p0 = 0xF4 then 0x44
  else 0xF1

/-- The table `acceptRanges` of `unicode/utf8`: the range `(lo, hi)` of valid second bytes. -/
def acceptRanges (i : Nat) : Nat × Nat :=
  match i with
  | 0 => (0x80, 0xBF)
  | 1 => (0xA0, 0xBF)
  | 2 => (0x80, 0x9F)
  | 3 => (0x90, 0xBF)
  | 4 => (0x80, 0x8F)
  | _ => (0, 0)

/-- `utf8.DecodeRune(p)`: the first rune of `p` and its width in bytes; `(RuneError, 0)`
for empty `p` and `(RuneError, 1)` for an invalid encoding. -/
def DecodeRune (p : GoString) : Nat × Nat :=
  match p with
  | [] => (RuneError, 0)
  | p0 :: _ =>
    let x := first p0
    if x ≥ 0xF0 then
      (if x = 0xF0 then p0 else RuneError, 1)
    else
      let sz := x &&& 7
      let accept := acceptRanges (x >>> 4)
      if p.length < sz then (RuneError, 1)
      else
        let b1 := p.getD 1 0
        if b1 < accept.1 || accept.2 < b1 then (RuneError, 1)
        else if sz ≤ 2 then ((p0 &&& 0x1F) <<< 6 ||| (b1 &&& 0x3F), 2)
        else
          let b2 := p.getD 2 0
          if b2 < 0x80 || 0xBF < b2 then (RuneError, 1)
          else if sz ≤ 3 then
            ((p0 &&& 0x0F) <<< 12 ||| (b1 &&& 0x3F) <<< 6 ||| (b2 &&& 0x3F), 3)
          else
            let b3 := p.getD 3 0
            if b3 < 0x80 || 0xBF < b3 then (RuneError, 1)
            else
              ((p0 &&& 0x07) <<< 18 ||| (b1 &&& 0x3F) <<< 12 ||| (b2 &&& 0x3F) <<< 6
                ||| (b3 &&& 0x3F), 4)

/-- `bufio.Reader.ReadRune` on a reader with unread bytes `p` (non-empty): the reader
fills its buffer until it holds a full rune or the stream ends, takes an ASCII byte as
it is and otherwise calls `utf8.DecodeRune` on what it holds. -/
def ReadRune (p : GoString) : Nat × Nat :=
  match p with
  | [] => (0, 0)
  | p0 :: _ => if p0 < 0x80 then (p0, 1) else DecodeRune p

/-- `utf8.RuneLen(r)`: the number of bytes of the encoding of `r`, `-1` when `r` is not a
value that can be encoded (a surrogate half or a value above `MaxRune`). -/
def RuneLen (r : Nat) : Int :=
  if r ≤ 0x7F then 1
  else if r ≤ 0x7FF then 2
  else if 0xD800 ≤ r ∧ r ≤ 0xDFFF then -1
  else if r ≤ 0xFFFF then 3
  else if r ≤ MaxRune then 4
  else -1

/-- The bytes `utf8.EncodeRune` writes for `r`; `byte(x)` is `x % 256`. A rune out of
range is written as `RuneError`. -/
def encodedBytes (r : Nat) : GoString :=
  if r ≤ 0x7F then [r % 256]
  else if r ≤ 0x7FF then [0xC0 ||| (r >>> 6) % 256, 0x80 ||| (r % 256 &&& 0x3F)]
  else
    let r := if r > MaxRune ∨ (0xD800 ≤ r ∧ r ≤ 0xDFFF) then RuneError else r
    if r ≤ 0xFFFF then
      [0xE0 ||| (r >>> 12) % 256, 0x80 ||| ((r >>> 6) % 256 &&& 0x3F),
        0x80 ||| (r % 256 &&& 0x3F)]
    else
      [0xF0 ||| (r >>> 18) % 256, 0x80 ||| ((r >>> 12) % 256 &&& 0x3F),
        0x80 ||| ((r >>> 6) % 256 &&& 0x3F), 0x80 ||| (r % 256 &&& 0x3F)]

/-- `make([]byte, n)`: panics (`none`) for negative `n`. -/
def makeBytes (n : Int) : Option GoString :=
  if n < 0 then none else some (List.replicate n.toNat 0)

/-- `utf8.EncodeRune(p, r)`: writes the encoding into the front of `p`; panics (`none`)
when `p` is too short. -/
def EncodeRune (p : GoString) (r : Nat) : Option GoString :=
  let e := encodedBytes r
  if p.length < e.length then none else some (e ++ p.drop e.length)

/-! ## `writeCharByChar` -/

/-- The state in which a run of `writeCharByChar` ends. -/
structure WriterRun where
  w : ResponseWriter
  outcome : Outcome
deriving DecidableEq

/-- The loop of `writeCharByChar` (lines 28-42), with fuel for the iterations. -/
def writeLoop : Nat → ResponseWriter → BodyStream → WriterRun
  | 0, w, _ => ⟨w, Outcome.unfinished⟩
  | fuel + 1, w, r =>
    match r.data with
    | [] =>
      match r.err with
      | none => ⟨w, Outcome.returned⟩
      | some e => ⟨httpError w e 500, Outcome.returned⟩
    | p0 :: rest =>
      let char := (ReadRune (p0 :: rest)).1
      let size := (ReadRune (p0 :: rest)).2
      match makeBytes (RuneLen char) with
      | none => ⟨w, Outcome.panicked⟩
      | some buf0 =>
        match EncodeRune buf0 char with
        | none => ⟨w, Outcome.panicked⟩
        | some buf =>
          writeLoop fuel ((w.Write buf).Flush) { r with data := (p0 :: rest).drop size }

/-- `writeCharByChar(w, r)`. Every iteration but the last consumes a byte at least, so
one more iteration than there are bytes is enough fuel. -/
def writeCharByChar (w : ResponseWriter) (r : BodyStream) : WriterRun :=
  writeLoop (r.data.length + 1) w r

/-! ## `getClientIP` and `ProxyHandler` -/

/-- `getClientIP(r)` (lines 15-24). -/
def getClientIP (r : Request) : GoString :=
  let ip := r.Header.Get (ascii "X-Forwarded-For")
  let ip := if ip = [] then r.Header.Get (ascii "X-Real-Ip") else ip
  let ip := if ip = [] then r.RemoteAddr else ip
  ip

/-- The state in which a run of the handler ends: the client response, the rotation
table, and the request handed to `http.DefaultClient.Do` if that call was reached. -/
structure HandlerRun where
  w : ResponseWriter
  keyIndex : SyncMap
  sent : Option OutRequest
  outcome : Outcome

/-- The header deletions of lines 96-105. -/
def stripHeaders (h : Header) : Header :=
  ((((((((((h.Del (ascii "CF-Connecting-IP")).Del (ascii "X-Forwarded-For")).Del
    (ascii "X-Real-IP")).Del (ascii "X-Envoy-External-Address")).Del
    (ascii "X-Forwarded-Host")).Del (ascii "X-Forwarded-Proto")).Del (ascii "Cf-Ray")).Del
    (ascii "Cf-Visitor")).Del (ascii "Cf-Ipcountry")).Del (ascii "Cf-Request-Id"))

/-- Lines 84-93 of `ProxyHandler`: the choice of `baseURL`. -/
def baseURL (config : OpenAIConfig) : GoString :=
  if config.BaseURL ≠ [] then config.BaseURL
  else if config.Helicone ≠ [] then ascii "https://oai.hconeai.com"
  else ascii "https://api.openai.com"

/-- Lines 117-126 of `ProxyHandler`: the outbound request, from the inbound request `r`
as it is after the deletions of lines 96-105. `req.Header = r.Header` shares one map
between the two requests, so `getClientIP(r)` reads the map of the outbound request. -/
def outboundRequest (config : OpenAIConfig) (r : Request) (proxyURL : GoString) :
    OutRequest :=
  let h := r.Header.Set (ascii "Transfer-Encoding") (r.Header.Get (ascii "Transfer-Encoding"))
  let r := { r with Header := h }
  let h := r.Header.Set (ascii "Content-Type") (r.Header.Get (ascii "Content-Type"))
  let r := { r with Header := h }
  let r :=
    if config.Helicone ≠ [] then
      let clientIP := getClientIP r
      let h := r.Header.Set (ascii "Helicone-Auth") (ascii "Bearer " ++ config.Helicone)
      let h := h.Set (ascii "helicone-user-id") clientIP
      { r with Header := h }
    else r
  ⟨r.Method, proxyURL, r.RawQuery, r.Header, r.Body⟩

/-- Lines 84-144 of `ProxyHandler`: the part after the credential has been rewritten in
`r.Header`. -/
def proxyForward (config : OpenAIConfig) (net : Upstream) (w : ResponseWriter)
    (keyIndex : SyncMap) (r : Request) : HandlerRun :=
  let r := { r with Header := stripHeaders r.Header }
  let proxyURL := baseURL config ++ r.RequestURI
  if net.NewRequestFails r.Method proxyURL then
    ⟨httpError w (ascii "Error creating proxy request") 500, keyIndex, none,
      Outcome.returned⟩
  else
    let req := outboundRequest config r proxyURL
    match net.Do req with
    | none =>
      ⟨httpError w (ascii "Error sending proxy request") 500, keyIndex, some req,
        Outcome.returned⟩
    | some resp =>
      let w := w.WriteHeader resp.StatusCode
      let run := writeCharByChar w resp.Body
      ⟨run.w, keyIndex, some req, run.outcome⟩

/-- The body of the 403 answer (line 68). -/
def invalidTokenMessage : GoString :=
  ascii "\x7b\"error\":\x7b\"message\":\"Invalid Token\",\"code\":403\x7d\x7d"

/-- What lines 47-62 of `ProxyHandler` make of the `Authorization` header: it is
missing, it is malformed, it yields a token, or a slice expression faults. -/
inductive Parsed where
  | missing
  | malformed
  | token (token : GoString)
  | fault
deriving DecidableEq

/-- Lines 47-62 of `ProxyHandler`: the checks on the `Authorization` header and
`token := authorization[7:]`. -/
def parseAuthorization (authorization : GoString) : Parsed :=
  if authorization.length = 0 then Parsed.missing
  else
    -- `len(authorization) < 9 || authorization[:7] != "Bearer "`, left to right
    let malformed : Option Bool :=
      if authorization.length < 9 then some true
      else (sliceTo authorization 7).map (fun p => decide (p ≠ ascii "Bearer "))
    match malformed with
    | none => Parsed.fault
    | some true => Parsed.malformed
    | some false =>
      match sliceFrom authorization 7 with
      | none => Parsed.fault
      | some token => Parsed.token token

/-- `ProxyHandler(config)` applied to a request, with the rotation table `keyIndex` as
it is when the request arrives (lines 46-145). -/
def ProxyHandler (config : OpenAIConfig) (net : Upstream) (keyIndex : SyncMap)
    (r : Request) : HandlerRun :=
  let w : ResponseWriter := ⟨none, []⟩
  match parseAuthorization (r.Header.Get (ascii "Authorization")) with
  | Parsed.missing =>
    ⟨httpError w (ascii "Authorization header is missing") 400, keyIndex, none,
      Outcome.returned⟩
  | Parsed.malformed =>
    ⟨httpError w (ascii "Invalid Authorization header format") 400, keyIndex, none,
      Outcome.returned⟩
  | Parsed.fault => ⟨w, keyIndex, none, Outcome.panicked⟩
  | Parsed.token token =>
    match sliceTo token 3 with
    | none => ⟨w, keyIndex, none, Outcome.panicked⟩
    | some head =>
      if head = ascii "genai-" then
        match lookupKey config.Keys token with
        | none => ⟨httpError w invalidTokenMessage 403, keyIndex, none, Outcome.returned⟩
        | some keys =>
          let draw := rotationDraw keyIndex token keys.length
          match keys.get? draw.1 with
          | none => ⟨w, (keyIndex.LoadOrStore token 0).2, none, Outcome.panicked⟩
          | some key =>
            let h := r.Header.Set (ascii "Authorization") (ascii "Bearer " ++ key)
            proxyForward config net w draw.2 { r with Header := h }
      else
        let h := r.Header.Set (ascii "Authorization") (ascii "Bearer " ++ token)
        proxyForward config net w keyIndex { r with Header := h }

/-- The handler answers the request itself, without a call upstream, with the status
`code` and the body `http.Error` makes of `message`. -/
def answers (run : HandlerRun) (code : Nat) (message : GoString) : Prop :=
  run.outcome = Outcome.returned ∧ run.sent = none ∧
    run.w = ⟨some code, [Event.write (message ++ [10])]⟩

instance (run : HandlerRun) (code : Nat) (message : GoString) :
    Decidable (answers run code message) := by
  unfold answers; infer_instance

/-! ## Concurrent rotation draws -/

/-- A rotation draw of one caller: `index` is the value its `LoadOrStore` returned, once
that call (line 74) is done; `stored` tells whether its `Store` (line 78) is done. -/
structure Draw where
  token : GoString
  poolSize : Nat
  index : Option Nat
  stored : Bool
deriving DecidableEq

/-- A draw that has not started. -/
def Draw.start (token : GoString) (poolSize : Nat) : Draw := ⟨token, poolSize, none, false⟩

/-- The next atomic step of a draw on the shared table: `LoadOrStore` first, `Store` of
`(index + 1) % len(keys)` second; a finished draw does nothing. -/
def Draw.step (m : SyncMap) (d : Draw) : SyncMap × Draw :=
  match d.index with
  | none =>
    let loaded := m.LoadOrStore d.token 0
    (loaded.2, { d with index := some loaded.1 })
  | some index =>
    if d.stored then (m, d)
    else (m.Store d.token ((index + 1) % d.poolSize), { d with stored := true })

/-- Two callers under a schedule: `false` lets the first caller take its next step, `true`
the second. -/
def interleave : SyncMap → Draw → Draw → List Bool → SyncMap × Draw × Draw
  | m, a, b, [] => (m, a, b)
  | m, a, b, false :: rest => interleave (Draw.step m a).1 (Draw.step m a).2 b rest
  | m, a, b, true :: rest => interleave (Draw.step m b).1 a (Draw.step m b).2 rest

/-- A schedule under which both callers complete their two steps. -/
def completeSchedule (s : List Bool) : Prop :=
  s.count false = 2 ∧ s.count true = 2

instance (s : List Bool) : Decidable (completeSchedule s) := by
  unfold completeSchedule; infer_instance

/-! ## UTF-8 as the specification has it -/

/-- A Unicode scalar value: a code point that is not a surrogate half. -/
def IsScalar (r : Nat) : Prop := r < 0xD800 ∨ (0xE000 ≤ r ∧ r ≤ 0x10FFFF)

instance (r : Nat) : Decidable (IsScalar r) := by unfold IsScalar; infer_instance

/-- The UTF-8 encoding of a scalar value (RFC 3629), in arithmetic. -/
def utf8 (r : Nat) : GoString :=
  if r < 0x80 then [r]
  else if r < 0x800 then [0xC0 + r / 64, 0x80 + r % 64]
  else if r < 0x10000 then [0xE0 + r / 4096, 0x80 + r / 64 % 64, 0x80 + r % 64]
  else [0xF0 + r / 262144, 0x80 + r / 4096 % 64, 0x80 + r / 64 % 64, 0x80 + r % 64]

/-- The UTF-8 encoding of a string of scalar values. -/
def utf8String (rs : List Nat) : GoString := rs.flatMap utf8

/-- A byte string is valid UTF-8 when it is the encoding of a string of scalar values. -/
def ValidUTF8 (body : GoString) : Prop :=
  ∃ rs : List Nat, (∀ r ∈ rs, IsScalar r) ∧ body = utf8String rs

/-- Decoding with replacement: a scalar value whose encoding starts the bytes is taken
whole; a byte that starts no encoding is replaced by U+FFFD. -/
inductive DecodesLossy : GoString → List Nat → Prop where
  | done : DecodesLossy [] []
  | scalar (r : Nat) (rest : GoString) (rs : List Nat) :
      IsScalar r → DecodesLossy rest rs → DecodesLossy (utf8 r ++ rest) (r :: rs)
  | replaced (b : Nat) (rest : GoString) (rs : List Nat) :
      (∀ r tail, IsScalar r → b :: rest ≠ utf8 r ++ tail) →
      DecodesLossy rest rs → DecodesLossy (b :: rest) (0xFFFD :: rs)

/-- The response writer after one `Write` of the encoding and one `Flush` for each scalar
value of a list, in order. -/
def emit (w : ResponseWriter) (rs : List Nat) : ResponseWriter :=
  rs.foldl (fun w r => (w.Write (utf8 r)).Flush) w

/-! ## Concrete inputs -/

/-- A configuration with the pool `["k1", "k2"]` registered for `"genai-abc"` and the
telemetry relay configured. -/
def sampleConfig : OpenAIConfig :=
  ⟨[(ascii "genai-abc", [ascii "k1", ascii "k2"])], [], ascii "hk"⟩

/-- A request from `10.0.0.1:5555` with the given `Authorization` header and
`X-Forwarded-For: 1.2.3.4`. -/
def sampleRequest (authorization : GoString) : Request :=
  ⟨ascii "GET", ascii "/v1/models", [],
    ⟨[(ascii "Authorization", [authorization]), (ascii "X-Forwarded-For", [ascii "1.2.3.4"])]⟩,
    ascii "10.0.0.1:5555", []⟩

/-- An upstream that answers every request with status 200 and the body `"ok"`. -/
def okUpstream : Upstream :=
  ⟨fun _ _ => false, fun _ => some ⟨200, ⟨ascii "ok", none⟩⟩⟩

/-- An upstream that answers with status 200 and a body whose first read fails with
`unexpected EOF`. -/
def brokenBodyUpstream : Upstream :=
  ⟨fun _ _ => false, fun _ => some ⟨200, ⟨[], some (ascii "unexpected EOF")⟩⟩⟩

/-! ## Lemmas on the table -/

theorem lookupKey_eraseKey {β : Type} (es : List (GoString × β)) (k k2 : GoString)
    (h : ¬ k = k2) :
    lookupKey (eraseKey es k) k2 = lookupKey es k2 := by
  induction es with
  | nil => rfl
  | cons e es ih =>
    obtain ⟨ek, ev⟩ := e
    by_cases he : ek = k
    · have h2 : ¬ ek = k2 := fun h2 => h (he ▸ h2)
      simp only [eraseKey, lookupKey, he, if_true, ih]
      rw [if_neg (he ▸ h2)]
    · by_cases he2 : ek = k2
      · rw [eraseKey, if_neg he, lookupKey, lookupKey, if_pos he2, if_pos he2]
      · simp only [eraseKey, lookupKey, he, he2, if_false, ih]

theorem SyncMap.load_store (m : SyncMap) (k k2 : GoString) (v : Nat) :
    (m.Store k v).Load k2 = if k = k2 then some v else m.Load k2 := by
  unfold SyncMap.Store SyncMap.Load
  by_cases h : k = k2
  · simp [lookupKey, h]
  · simp only [lookupKey, h, if_false]
    exact lookupKey_eraseKey _ _ _ h

theorem load_rotationDraw (m : SyncMap) (t k : GoString) (K : Nat) :
    (rotationDraw m t K).2.Load k
      = if t = k then some (((m.Load t).getD 0 + 1) % K) else m.Load k := by
  unfold rotationDraw SyncMap.LoadOrStore
  cases hm : m.Load t with
  | none =>
    by_cases h : t = k
    · simp [SyncMap.load_store, h]
    · simp [SyncMap.load_store, h]
  | some v =>
    by_cases h : t = k
    · simp [SyncMap.load_store, h]
    · simp [SyncMap.load_store, h]

theorem index_rotationDraw (m : SyncMap) (t : GoString) (K : Nat) :
    (rotationDraw m t K).1 = (m.Load t).getD 0 := by
  unfold rotationDraw SyncMap.LoadOrStore
  cases hm : m.Load t <;> simp

theorem drawsFor_cons (t tok : GoString) (ps : Nat) (rest : List (GoString × Nat)) :
    drawsFor t ((tok, ps) :: rest) = (if tok = t then 1 else 0) + drawsFor t rest := by
  unfold drawsFor
  by_cases h : tok = t
  · simp [List.filter_cons, h]; omega
  · simp [List.filter_cons, h]

theorem issuedTo_cons (t tok : GoString) (i : Nat) (rest : List (GoString × Nat)) :
    issuedTo t ((tok, i) :: rest) = if tok = t then i :: issuedTo t rest else issuedTo t rest := by
  unfold issuedTo
  by_cases h : tok = t
  · simp [List.filter_cons, h]
  · simp [List.filter_cons, h]

/-- The sequential behaviour of the rotation step, from any table whose current index for
`t` (0 when absent) is `s % K`. -/
theorem runDraws_spec (t : GoString) (K : Nat) :
    ∀ (sched : List (GoString × Nat)) (m : SyncMap) (s : Nat),
      (∀ d ∈ sched, d.1 = t → d.2 = K) → (m.Load t).getD 0 = s % K →
      issuedTo t (runDraws m sched).1
          = (List.range (drawsFor t sched)).map (fun i => (s + i) % K)
      ∧ (1 ≤ drawsFor t sched →
          (runDraws m sched).2.Load t = some ((s + drawsFor t sched) % K))
      ∧ (drawsFor t sched = 0 → (runDraws m sched).2.Load t = m.Load t) := by
  intro sched
  induction sched with
  | nil =>
    intro m s _ _
    simp [runDraws, issuedTo, drawsFor]
  | cons d rest ih =>
    intro m s hs hm
    obtain ⟨tok, ps⟩ := d
    have hrest : ∀ d ∈ rest, d.1 = t → d.2 = K := fun d hd => hs d (List.mem_cons_of_mem _ hd)
    by_cases htok : tok = t
    · subst htok
      have hps : ps = K := hs (tok, ps) (List.mem_cons_self _ _) rfl
      subst hps
      have hload : (rotationDraw m tok ps).2.Load tok = some ((s + 1) % ps) := by
        rw [load_rotationDraw, if_pos rfl, hm, Nat.add_mod, Nat.mod_mod, ← Nat.add_mod]
      have hidx : (rotationDraw m tok ps).1 = s % ps := by rw [index_rotationDraw, hm]
      obtain ⟨h1, h2, h3⟩ := ih (rotationDraw m tok ps).2 (s + 1) hrest (by rw [hload]; rfl)
      simp only [runDraws, drawsFor_cons, issuedTo_cons, if_true]
      refine ⟨?_, ?_, ?_⟩
      · rw [h1, hidx, Nat.add_comm 1, List.range_succ_eq_map]
        simp only [List.map_cons, List.map_map, Nat.add_zero]
        congr 1
        apply List.map_congr_left
        intro i _
        simp only [Function.comp, Nat.succ_eq_add_one]
        congr 1; omega
      · intro _
        by_cases h0 : drawsFor tok rest = 0
        · rw [h3 h0, hload, h0]
        · rw [h2 (Nat.one_le_iff_ne_zero.mpr h0)]
          congr 2; omega
      · intro h; omega
    · have hload : (rotationDraw m tok ps).2.Load t = m.Load t := by
        rw [load_rotationDraw, if_neg htok]
      obtain ⟨h1, h2, h3⟩ := ih (rotationDraw m tok ps).2 s hrest (by rw [hload]; exact hm)
      simp only [runDraws, drawsFor_cons, issuedTo_cons, if_neg htok, Nat.zero_add]
      exact ⟨h1, h2, fun h => (h3 h).trans hload⟩

theorem count_single (j x : Nat) : List.count j [x] = if x = j then 1 else 0 := by
  by_cases h : x = j
  · subst h; simp
  · rw [if_neg h]
    exact List.count_eq_zero.mpr (by simpa using fun h2 => h h2.symm)

theorem count_mod_range (K : Nat) (hK : 1 ≤ K) (j : Nat) (hj : j < K) :
    ∀ N, ((List.range N).map (fun i => i % K)).count j
      = N / K + (if j < N % K then 1 else 0) := by
  intro N
  induction N with
  | zero => simp
  | succ N ih =>
    rw [List.range_succ, List.map_append, List.count_append, ih, List.map_singleton,
      count_single]
    have hr : N % K < K := Nat.mod_lt _ hK
    have hN : K * (N / K) + N % K = N := Nat.div_add_mod N K
    by_cases hlast : N % K + 1 = K
    · have e1 : N + 1 = K * (N / K + 1) := by rw [Nat.mul_add]; omega
      have hd : (N + 1) / K = N / K + 1 := by
        rw [e1, Nat.mul_div_cancel_left _ hK]
      have hm : (N + 1) % K = 0 := by rw [e1]; exact Nat.mul_mod_right _ _
      rw [hd, hm]
      by_cases hjr : j < N % K
      · have : ¬ N % K = j := by omega
        simp [hjr, this]
      · have : N % K = j := by omega
        simp [hjr, this]
    · have e1 : N + 1 = (N % K + 1) + K * (N / K) := by omega
      have hlt : N % K + 1 < K := by omega
      have hd : (N + 1) / K = N / K := by
        rw [e1, Nat.add_mul_div_left _ _ hK, Nat.div_eq_of_lt hlt, Nat.zero_add]
      have hm : (N + 1) % K = N % K + 1 := by
        rw [e1, Nat.add_mul_mod_self_left, Nat.mod_eq_of_lt hlt]
      rw [hd, hm]
      by_cases hjr : j < N % K
      · have h1 : ¬ N % K = j := by omega
        have h2 : j < N % K + 1 := by omega
        simp [hjr, h1, h2]
      · by_cases hje : N % K = j
        · have h2 : j < N % K + 1 := by omega
          rw [if_neg hjr, if_pos hje, if_pos h2]
        · have h2 : ¬ j < N % K + 1 := by omega
          rw [if_neg hjr, if_neg hje, if_neg h2]

theorem ceil_div (N K : Nat) (hK : 1 ≤ K) (h : 0 < N % K) : (N + K - 1) / K = N / K + 1 := by
  have hN : K * (N / K) + N % K = N := Nat.div_add_mod N K
  have hr : N % K < K := Nat.mod_lt _ hK
  generalize N / K = q at hN ⊢
  generalize N % K = r at hN hr h
  have e : N + K - 1 = (r - 1) + K * (q + 1) := by
    rw [Nat.mul_add, Nat.mul_one]; omega
  have hlt : r - 1 < K := by omega
  rw [e, Nat.add_mul_div_left _ _ hK, Nat.div_eq_of_lt hlt, Nat.zero_add]

/-! ## The rotation step, sequentially -/

/-- C2: from a table with no entry for `t`, the draws for `t` in any sequence of rotation
steps (draws for other tokens in between, pool size `K ≥ 1` for `t`) are issued the
indices `0 % K, 1 % K, ..., (N-1) % K` in that order, where `N` is the number of draws
for `t`; afterwards `N % K` is stored for `t` (nothing is stored when `N = 0`); every
issued and stored index is below `K`; and each index below `K` is issued `⌊N/K⌋` or
`⌈N/K⌉` times. -/
theorem rotation_round_robin (t : GoString) (K : Nat) (hK : 1 ≤ K) (m : SyncMap)
    (hm : m.Load t = none) (sched : List (GoString × Nat))
    (hs : ∀ d ∈ sched, d.1 = t → d.2 = K) :
    issuedTo t (runDraws m sched).1 = (List.range (drawsFor t sched)).map (fun i => i % K)
    ∧ (1 ≤ drawsFor t sched → (runDraws m sched).2.Load t = some (drawsFor t sched % K))
    ∧ (drawsFor t sched = 0 → (runDraws m sched).2.Load t = none)
    ∧ (∀ i ∈ issuedTo t (runDraws m sched).1, i < K)
    ∧ (∀ v, (runDraws m sched).2.Load t = some v → v < K)
    ∧ (∀ j, j < K →
        (issuedTo t (runDraws m sched).1).count j = drawsFor t sched / K ∨
        (issuedTo t (runDraws m sched).1).count j = (drawsFor t sched + K - 1) / K) := by
  have h0 : (m.Load t).getD 0 = 0 % K := by rw [hm]; simp
  obtain ⟨h1, h2, h3⟩ := runDraws_spec t K sched m 0 hs h0
  simp only [Nat.zero_add] at h1 h2
  refine ⟨h1, h2, fun h => (h3 h).trans hm, ?_, ?_, ?_⟩
  · intro i hi
    rw [h1] at hi
    obtain ⟨a, _, rfl⟩ := List.mem_map.mp hi
    exact Nat.mod_lt _ hK
  · intro v hv
    by_cases hN : drawsFor t sched = 0
    · rw [h3 hN, hm] at hv; cases hv
    · rw [h2 (Nat.one_le_iff_ne_zero.mpr hN)] at hv
      cases hv
      exact Nat.mod_lt _ hK
  · intro j hj
    rw [h1, count_mod_range K hK j hj]
    by_cases hlt : j < drawsFor t sched % K
    · right
      rw [if_pos hlt, ceil_div _ K hK (by omega)]
    · left
      rw [if_neg hlt, Nat.add_zero]

/-- Witness of C2: three draws for `"genai-abc"` with a pool of two keys, a draw for
another token in between, on a fresh table. -/
theorem rotation_round_robin_witness :
    issuedTo (ascii "genai-abc")
        (runDraws SyncMap.empty
          [(ascii "genai-abc", 2), (ascii "genai-xyz", 3), (ascii "genai-abc", 2),
            (ascii "genai-abc", 2)]).1
      = [0, 1, 0] :=
  (rotation_round_robin (ascii "genai-abc") 2 (by decide) SyncMap.empty (by decide)
    [(ascii "genai-abc", 2), (ascii "genai-xyz", 3), (ascii "genai-abc", 2),
      (ascii "genai-abc", 2)] (by decide)).1

/-! ## Parsing the credential -/

theorem parseAuthorization_eq (h : GoString) :
    parseAuthorization h =
      if h = [] then Parsed.missing
      else if h.length < 9 ∨ h.take 7 ≠ ascii "Bearer " then Parsed.malformed
      else Parsed.token (h.drop 7) := by
  unfold parseAuthorization
  by_cases h0 : h = []
  · subst h0; rfl
  · have hlen : ¬ h.length = 0 := fun e => h0 (List.length_eq_zero.mp e)
    rw [if_neg hlen, if_neg h0]
    by_cases h9 : h.length < 9
    · simp [h9]
    · have h7 : 7 ≤ h.length := by omega
      by_cases hp : h.take 7 = ascii "Bearer "
      · simp [h9, hp, sliceTo, sliceFrom, h7]
      · simp [h9, hp, sliceTo, h7]

/-- The marker comparison of line 65 compares three bytes with six: it never holds. -/
theorem marker_never_matches (token head : GoString) (h : sliceTo token 3 = some head) :
    head ≠ ascii "genai-" := by
  unfold sliceTo at h
  split at h
  · cases h
    intro e
    have hl := congrArg List.length e
    rw [List.length_take] at hl
    have : (ascii "genai-").length = 6 := by decide
    omega
  · cases h

theorem proxyForward_sent_none (config : OpenAIConfig) (net : Upstream) (w : ResponseWriter)
    (keyIndex : SyncMap) (r : Request) (h : (proxyForward config net w keyIndex r).sent = none) :
    (proxyForward config net w keyIndex r).w
      = httpError w (ascii "Error creating proxy request") 500 := by
  unfold proxyForward at h ⊢
  simp only at h ⊢
  by_cases hn : net.NewRequestFails r.Method (baseURL config ++ r.RequestURI) = true
  · rw [if_pos hn]
  · rw [if_neg hn] at h
    split at h <;> cases h

/-- What the handler does with a parsed token. -/
theorem ProxyHandler_token (config : OpenAIConfig) (net : Upstream) (keyIndex : SyncMap)
    (r : Request) (token : GoString)
    (hp : parseAuthorization (r.Header.Get (ascii "Authorization")) = Parsed.token token) :
    (token.length < 3 →
      ProxyHandler config net keyIndex r = ⟨⟨none, []⟩, keyIndex, none, Outcome.panicked⟩) ∧
    (3 ≤ token.length →
      ProxyHandler config net keyIndex r
        = proxyForward config net ⟨none, []⟩ keyIndex
            { r with Header :=
                r.Header.Set (ascii "Authorization") (ascii "Bearer " ++ token) }) := by
  unfold ProxyHandler
  simp only [hp]
  constructor
  · intro hl
    have : sliceTo token 3 = none := by unfold sliceTo; rw [if_neg (by omega)]
    rw [this]
  · intro hl
    have hs : sliceTo token 3 = some (token.take 3) := by unfold sliceTo; rw [if_pos hl]
    rw [hs]
    simp only
    rw [if_neg (marker_never_matches token _ hs)]

theorem httpError_fresh (message : GoString) (code : Nat) :
    httpError ⟨none, []⟩ message code = ⟨some code, [Event.write (message ++ [10])]⟩ := rfl

theorem not_bearer_two_iff (h : GoString) :
    (h.length < 9 ∨ h.take 7 ≠ ascii "Bearer ") ↔
      ¬ ∃ t : GoString, 2 ≤ t.length ∧ h = ascii "Bearer " ++ t := by
  have hb : (ascii "Bearer ").length = 7 := by decide
  constructor
  · rintro hh ⟨t, ht, rfl⟩
    rcases hh with hh | hh
    · rw [List.length_append, hb] at hh; omega
    · apply hh
      rw [List.take_append_of_le_length (by omega), List.take_of_length_le (by omega)]
  · intro hne
    by_contra hcon
    push_neg at hcon
    obtain ⟨h9, h7⟩ := hcon
    apply hne
    refine ⟨h.drop 7, ?_, ?_⟩
    · rw [List.length_drop]; omega
    · rw [← h7, List.take_append_drop]

/-! ## Theorems on the claims about the credential -/

/-- C3, counterexample: the header `Bearer x` is the scheme
marker followed by one character, and the handler answers it with 400 and
`Invalid Authorization header format`. -/
theorem one_byte_token_rejected :
    (ascii "Bearer x" ≠ [] ∧ ∃ t : GoString, 1 ≤ t.length ∧ ascii "Bearer x" = ascii "Bearer " ++ t) ∧
    answers (ProxyHandler sampleConfig okUpstream SyncMap.empty (sampleRequest (ascii "Bearer x")))
      400 (ascii "Invalid Authorization header format") :=
  ⟨⟨by decide, ascii "x", by decide, by decide⟩, by decide⟩

/-- C3, amended: for every request, with `h` its `Authorization` header: the handler
answers 400 with `Authorization header is missing` exactly when `h` is empty; it answers
400 with `Invalid Authorization header format` exactly when `h` is non-empty and is not
`"Bearer "` followed by at least two bytes; and exactly in the remaining case the header
is accepted with the token `h` without its first 7 bytes. -/
theorem authorization_validation (config : OpenAIConfig) (net : Upstream)
    (keyIndex : SyncMap) (r : Request) :
    (answers (ProxyHandler config net keyIndex r) 400 (ascii "Authorization header is missing")
      ↔ r.Header.Get (ascii "Authorization") = []) ∧
    (answers (ProxyHandler config net keyIndex r) 400
        (ascii "Invalid Authorization header format")
      ↔ r.Header.Get (ascii "Authorization") ≠ [] ∧
        ¬ ∃ t : GoString, 2 ≤ t.length ∧
          r.Header.Get (ascii "Authorization") = ascii "Bearer " ++ t) ∧
    (parseAuthorization (r.Header.Get (ascii "Authorization"))
        = Parsed.token ((r.Header.Get (ascii "Authorization")).drop 7)
      ↔ ∃ t : GoString, 2 ≤ t.length ∧
          r.Header.Get (ascii "Authorization") = ascii "Bearer " ++ t) := by
  generalize hh : r.Header.Get (ascii "Authorization") = h
  have hparse := parseAuthorization_eq h
  rw [← not_bearer_two_iff]
  have hdec : (∃ t : GoString, 2 ≤ t.length ∧ h = ascii "Bearer " ++ t) ↔
      ¬ (h.length < 9 ∨ h.take 7 ≠ ascii "Bearer ") := by
    rw [not_bearer_two_iff, not_not]
  rw [hdec]
  have hne : ascii "Authorization header is missing"
      ≠ ascii "Invalid Authorization header format" := by decide
  by_cases h0 : h = []
  · -- missing
    rw [if_pos h0] at hparse
    have hrun : ProxyHandler config net keyIndex r
        = ⟨httpError ⟨none, []⟩ (ascii "Authorization header is missing") 400, keyIndex,
            none, Outcome.returned⟩ := by
      unfold ProxyHandler; simp only [hh, hparse]
    rw [hrun, hparse]
    refine ⟨⟨fun _ => h0, fun _ => ⟨rfl, rfl, rfl⟩⟩, ⟨?_, fun hc => absurd h0 hc.1⟩, ?_⟩
    · rintro ⟨_, _, hw⟩
      rw [httpError_fresh] at hw
      simp only [ResponseWriter.mk.injEq, List.cons.injEq, Event.write.injEq,
        List.append_cancel_right_eq, and_true, true_and] at hw
      exact absurd hw hne
    · constructor
      · intro hc; cases hc
      · intro hc; subst h0; exact absurd (Or.inl (by decide)) hc
  · rw [if_neg h0] at hparse
    by_cases hm : h.length < 9 ∨ h.take 7 ≠ ascii "Bearer "
    · -- malformed
      rw [if_pos hm] at hparse
      have hrun : ProxyHandler config net keyIndex r
          = ⟨httpError ⟨none, []⟩ (ascii "Invalid Authorization header format") 400, keyIndex,
              none, Outcome.returned⟩ := by
        unfold ProxyHandler; simp only [hh, hparse]
      rw [hrun, hparse]
      refine ⟨⟨?_, fun hc => absurd hc h0⟩, ⟨fun _ => ⟨h0, hm⟩, fun _ => ⟨rfl, rfl, rfl⟩⟩, ?_⟩
      · rintro ⟨_, _, hw⟩
        rw [httpError_fresh] at hw
        simp only [ResponseWriter.mk.injEq, List.cons.injEq, Event.write.injEq,
          List.append_cancel_right_eq, and_true, true_and] at hw
        exact absurd hw.symm hne
      · constructor
        · intro hc; cases hc
        · intro hc; exact absurd hm hc
    · -- a token
      rw [if_neg hm] at hparse
      have hnot : ∀ msg, ¬ answers (ProxyHandler config net keyIndex r) 400 msg := by
        intro msg ⟨ho, hs, hw⟩
        obtain ⟨hshort, hlong⟩ := ProxyHandler_token config net keyIndex r (h.drop 7)
          (by rw [hh]; exact hparse)
        by_cases hl : (h.drop 7).length < 3
        · rw [hshort hl] at ho; cases ho
        · rw [hlong (by omega)] at hs hw
          rw [proxyForward_sent_none _ _ _ _ _ hs, httpError_fresh] at hw
          cases hw
      refine ⟨⟨fun hc => absurd hc (hnot _), fun hc => absurd hc h0⟩,
        ⟨fun hc => absurd hc (hnot _), fun hc => absurd hc.2 hm⟩, ?_⟩
      rw [hparse]
      exact ⟨fun _ => hm, fun _ => rfl⟩

/-- C9, at the failing input: the header `Bearer ab` passes the checks of lines 48-60
(nine bytes, the first seven are `"Bearer "`), `authorization[:7]` and `authorization[7:]`
are in range, the token is `ab`, and `token[:3]` is out of range: the handler panics. -/
theorem short_token_slice_faults :
    (9 ≤ (ascii "Bearer ab").length ∧ (ascii "Bearer ab").take 7 = ascii "Bearer ") ∧
    sliceTo (ascii "Bearer ab") 7 = some (ascii "Bearer ") ∧
    sliceFrom (ascii "Bearer ab") 7 = some (ascii "ab") ∧
    parseAuthorization (ascii "Bearer ab") = Parsed.token (ascii "ab") ∧
    sliceTo (ascii "ab") 3 = none ∧
    (ProxyHandler sampleConfig okUpstream SyncMap.empty
      (sampleRequest (ascii "Bearer ab"))).outcome = Outcome.panicked := by
  decide

/-- The two atomic steps of a draw, run without interruption, are the rotation step. -/
theorem draw_steps_eq_rotationDraw (m : SyncMap) (t : GoString) (K : Nat) :
    (Draw.step (Draw.step m (Draw.start t K)).1 (Draw.step m (Draw.start t K)).2).1
        = (rotationDraw m t K).2 ∧
    (Draw.step (Draw.step m (Draw.start t K)).1 (Draw.step m (Draw.start t K)).2).2.index
        = some (rotationDraw m t K).1 := by
  simp [Draw.step, Draw.start, rotationDraw]

/-! ## The handler at the inputs where it departs from the specification -/

/-- C1, at the failing input: `"genai-abc"` carries the marker and is registered with the
pool `["k1", "k2"]`, yet on a fresh rotation table the request is forwarded with
`Authorization: Bearer genai-abc`, not `Bearer k1`, the table stays as it was, and so
the next request is forwarded with `Bearer genai-abc` again. -/
theorem virtual_token_forwarded_verbatim :
    (ascii "genai-abc").take 6 = ascii "genai-" ∧
    lookupKey sampleConfig.Keys (ascii "genai-abc") = some [ascii "k1", ascii "k2"] ∧
    (ProxyHandler sampleConfig okUpstream SyncMap.empty
        (sampleRequest (ascii "Bearer genai-abc"))).sent.map
      (fun q => q.Header.Get (ascii "Authorization")) = some (ascii "Bearer genai-abc") ∧
    (ProxyHandler sampleConfig okUpstream SyncMap.empty
        (sampleRequest (ascii "Bearer genai-abc"))).keyIndex = SyncMap.empty ∧
    (ProxyHandler sampleConfig okUpstream
        (ProxyHandler sampleConfig okUpstream SyncMap.empty
          (sampleRequest (ascii "Bearer genai-abc"))).keyIndex
        (sampleRequest (ascii "Bearer genai-abc"))).sent.map
      (fun q => q.Header.Get (ascii "Authorization")) = some (ascii "Bearer genai-abc") := by
  decide

/-- C4, at the failing input: `"genai-zzz"` carries the marker and is not a key of
`config.Keys`, yet the handler does not answer 403: it sends the request upstream with
`Authorization: Bearer genai-zzz` and relays the upstream answer (status 200). -/
theorem unknown_virtual_token_forwarded :
    (ascii "genai-zzz").take 6 = ascii "genai-" ∧
    lookupKey sampleConfig.Keys (ascii "genai-zzz") = none ∧
    ¬ answers (ProxyHandler sampleConfig okUpstream SyncMap.empty
        (sampleRequest (ascii "Bearer genai-zzz"))) 403 invalidTokenMessage ∧
    (ProxyHandler sampleConfig okUpstream SyncMap.empty
        (sampleRequest (ascii "Bearer genai-zzz"))).w.status = some 200 ∧
    (ProxyHandler sampleConfig okUpstream SyncMap.empty
        (sampleRequest (ascii "Bearer genai-zzz"))).sent.map
      (fun q => q.Header.Get (ascii "Authorization")) = some (ascii "Bearer genai-zzz") := by
  decide

/-- C5, at the failing input: the relay is configured and the request carries
`X-Forwarded-For: 1.2.3.4` (which `getClientIP` returns on the request as it arrived),
yet the outbound `helicone-user-id` is the connection address `10.0.0.1:5555`: the
header was deleted (line 97) before `getClientIP` is called (line 123). -/
theorem client_ip_read_after_deletion :
    sampleConfig.Helicone ≠ [] ∧
    (sampleRequest (ascii "Bearer sk-xyz")).Header.Get (ascii "X-Forwarded-For")
      = ascii "1.2.3.4" ∧
    getClientIP (sampleRequest (ascii "Bearer sk-xyz")) = ascii "1.2.3.4" ∧
    (ProxyHandler sampleConfig okUpstream SyncMap.empty
        (sampleRequest (ascii "Bearer sk-xyz"))).sent.map
      (fun q => q.Header.Get (ascii "helicone-user-id")) = some (ascii "10.0.0.1:5555") := by
  decide

/-- C7, at the failing input: the upstream answers 200 and the first read of its body
fails with `unexpected EOF`, before any body byte was written; the client receives the
status 200, not 500, with the error text as body: `w.WriteHeader(resp.StatusCode)`
(line 142) came first, so the `WriteHeader(500)` of `http.Error` has no effect. -/
theorem read_error_keeps_upstream_status :
    (ProxyHandler sampleConfig brokenBodyUpstream SyncMap.empty
        (sampleRequest (ascii "Bearer sk-xyz"))).outcome = Outcome.returned ∧
    (ProxyHandler sampleConfig brokenBodyUpstream SyncMap.empty
        (sampleRequest (ascii "Bearer sk-xyz"))).w
      = ⟨some 200, [Event.write (ascii "unexpected EOF\n")]⟩ := by
  decide

/-- C8, counterexample: two draws for one token with a pool of two keys on a fresh table.
Under the schedule in which both `LoadOrStore` calls (line 74) run before either `Store`
(line 78), both callers are issued index 0 and the stored index is 1, not `2 % 2 = 0`.
(One after the other, the draws are issued 0 and 1 and leave 0 stored.) -/
theorem interleaved_draws_share_index :
    completeSchedule [false, true, false, true] ∧
    interleave SyncMap.empty (Draw.start (ascii "genai-abc") 2)
        (Draw.start (ascii "genai-abc") 2) [false, true, false, true]
      = (⟨[(ascii "genai-abc", 1)]⟩, ⟨ascii "genai-abc", 2, some 0, true⟩,
          ⟨ascii "genai-abc", 2, some 0, true⟩) ∧
    interleave SyncMap.empty (Draw.start (ascii "genai-abc") 2)
        (Draw.start (ascii "genai-abc") 2) [false, false, true, true]
      = (⟨[(ascii "genai-abc", 0)]⟩, ⟨ascii "genai-abc", 2, some 0, true⟩,
          ⟨ascii "genai-abc", 2, some 1, true⟩) := by
  decide

/-! ## Two draws under a schedule -/

theorem succ_mod_ne (v K : Nat) (hK : 2 ≤ K) : (v + 1) % K ≠ v := by
  have hlt : (v + 1) % K < K := Nat.mod_lt _ (by omega)
  by_cases h1 : v + 1 < K
  · rw [Nat.mod_eq_of_lt h1]; omega
  · by_cases h2 : v + 1 = K
    · rw [h2, Nat.mod_self]; omega
    · omega

theorem succ_mod_succ (v K : Nat) (hK : 2 ≤ K) : ((v + 1) % K + 1) % K = (v + 2) % K := by
  have h1 : 1 % K = 1 := Nat.mod_eq_of_lt (by omega)
  have := Nat.add_mod (v + 1) 1 K
  rw [h1] at this
  rw [← this]

theorem complete_schedules (s : List Bool) (hs : completeSchedule s) :
    s = [false, false, true, true] ∨ s = [true, true, false, false] ∨
    s = [false, true, false, true] ∨ s = [false, true, true, false] ∨
    s = [true, false, false, true] ∨ s = [true, false, true, false] := by
  obtain ⟨hf, ht⟩ := hs
  have hlen : s.length = 4 := by rw [← List.count_false_add_count_true, hf, ht]
  match s, hlen with
  | [a, b, c, d], _ =>
    revert hf ht
    cases a <;> cases b <;> cases c <;> cases d <;> decide

/-- What two draws for one token come to under each complete schedule: the index issued
to the first caller, the index issued to the second, and the index stored afterwards,
with `i` the index current at the start (0 when the token has no entry). -/
theorem interleave_outcome (m : SyncMap) (t : GoString) (K : Nat) (s : List Bool)
    (hs : completeSchedule s) :
    ((interleave m (Draw.start t K) (Draw.start t K) s).2.1.stored = true ∧
     (interleave m (Draw.start t K) (Draw.start t K) s).2.2.stored = true) ∧
    ((s = [false, false, true, true] ∧
        (interleave m (Draw.start t K) (Draw.start t K) s).2.1.index
          = some ((m.Load t).getD 0) ∧
        (interleave m (Draw.start t K) (Draw.start t K) s).2.2.index
          = some (((m.Load t).getD 0 + 1) % K) ∧
        (interleave m (Draw.start t K) (Draw.start t K) s).1.Load t
          = some ((((m.Load t).getD 0 + 1) % K + 1) % K)) ∨
     (s = [true, true, false, false] ∧
        (interleave m (Draw.start t K) (Draw.start t K) s).2.1.index
          = some (((m.Load t).getD 0 + 1) % K) ∧
        (interleave m (Draw.start t K) (Draw.start t K) s).2.2.index
          = some ((m.Load t).getD 0) ∧
        (interleave m (Draw.start t K) (Draw.start t K) s).1.Load t
          = some ((((m.Load t).getD 0 + 1) % K + 1) % K)) ∨
     ((s ≠ [false, false, true, true] ∧ s ≠ [true, true, false, false]) ∧
        (interleave m (Draw.start t K) (Draw.start t K) s).2.1.index
          = some ((m.Load t).getD 0) ∧
        (interleave m (Draw.start t K) (Draw.start t K) s).2.2.index
          = some ((m.Load t).getD 0) ∧
        (interleave m (Draw.start t K) (Draw.start t K) s).1.Load t
          = some (((m.Load t).getD 0 + 1) % K))) := by
  rcases complete_schedules s hs with h | h | h | h | h | h <;> subst h <;>
    cases hm : m.Load t <;>
    simp [interleave, Draw.step, Draw.start, SyncMap.LoadOrStore, SyncMap.load_store, hm]

/-- C8, amended: for two rotation draws for one token with a pool of `K ≥ 2` keys, under
every schedule in which both callers complete their `LoadOrStore` and their `Store`:
the two draws are issued different indices and the stored index has advanced by
`2 mod K` exactly when the draws do not overlap (one caller takes both its steps before
the other takes its first); under every other schedule both callers are issued the same
index and the stored index has advanced by `1 mod K`. -/
theorem draws_distinct_iff_serial (m : SyncMap) (t : GoString) (K : Nat) (hK : 2 ≤ K)
    (s : List Bool) (hs : completeSchedule s) :
    (((interleave m (Draw.start t K) (Draw.start t K) s).2.1.index
          ≠ (interleave m (Draw.start t K) (Draw.start t K) s).2.2.index ∧
        (interleave m (Draw.start t K) (Draw.start t K) s).1.Load t
          = some (((m.Load t).getD 0 + 2) % K))
      ↔ (s = [false, false, true, true] ∨ s = [true, true, false, false])) ∧
    (¬ (s = [false, false, true, true] ∨ s = [true, true, false, false]) →
      (interleave m (Draw.start t K) (Draw.start t K) s).2.1.index
          = (interleave m (Draw.start t K) (Draw.start t K) s).2.2.index ∧
        (interleave m (Draw.start t K) (Draw.start t K) s).1.Load t
          = some (((m.Load t).getD 0 + 1) % K)) := by
  have hne := succ_mod_ne ((m.Load t).getD 0) K hK
  have hadv := succ_mod_succ ((m.Load t).getD 0) K hK
  rcases (interleave_outcome m t K s hs).2 with
    ⟨h, ha, hb, hst⟩ | ⟨h, ha, hb, hst⟩ | ⟨⟨h1, h2⟩, ha, hb, hst⟩
  · refine ⟨⟨fun _ => Or.inl h, fun _ => ⟨?_, by rw [hst, hadv]⟩⟩, fun hn => absurd (Or.inl h) hn⟩
    rw [ha, hb]
    intro e
    exact hne (Option.some.inj e).symm
  · refine ⟨⟨fun _ => Or.inr h, fun _ => ⟨?_, by rw [hst, hadv]⟩⟩, fun hn => absurd (Or.inr h) hn⟩
    rw [ha, hb]
    intro e
    exact hne (Option.some.inj e)
  · refine ⟨⟨fun hd => absurd (ha.trans hb.symm) hd.1, fun hser => ?_⟩, fun _ => ⟨ha.trans hb.symm, hst⟩⟩
    rcases hser with hser | hser
    · exact absurd hser h1
    · exact absurd hser h2

/-- Witness of C8, amended: on a fresh table, with a pool of two keys, the first caller
completes its draw before the second starts. -/
theorem draws_distinct_iff_serial_witness :
    (2 ≤ 2 ∧ completeSchedule [false, false, true, true]) ∧
    ((interleave SyncMap.empty (Draw.start (ascii "genai-abc") 2)
          (Draw.start (ascii "genai-abc") 2) [false, false, true, true]).2.1.index
        ≠ (interleave SyncMap.empty (Draw.start (ascii "genai-abc") 2)
          (Draw.start (ascii "genai-abc") 2) [false, false, true, true]).2.2.index ∧
      (interleave SyncMap.empty (Draw.start (ascii "genai-abc") 2)
          (Draw.start (ascii "genai-abc") 2) [false, false, true, true]).1.Load
          (ascii "genai-abc")
        = some (((SyncMap.empty.Load (ascii "genai-abc")).getD 0 + 2) % 2)) :=
  ⟨⟨by decide, by decide⟩,
    (draws_distinct_iff_serial SyncMap.empty (ascii "genai-abc") 2 (by decide)
      [false, false, true, true] (by decide)).1.mpr (Or.inl rfl)⟩

theorem proxyForward_keyIndex (config : OpenAIConfig) (net : Upstream) (w : ResponseWriter)
    (keyIndex : SyncMap) (r : Request) :
    (proxyForward config net w keyIndex r).keyIndex = keyIndex := by
  unfold proxyForward
  simp only
  by_cases hn : net.NewRequestFails r.Method (baseURL config ++ r.RequestURI) = true
  · rw [if_pos hn]
  · rw [if_neg hn]
    split <;> rfl

/-- No request makes the handler draw: the comparison of line 65 never holds, so lines
66-79 are never reached and the rotation table is left as it was. -/
theorem ProxyHandler_keyIndex (config : OpenAIConfig) (net : Upstream) (keyIndex : SyncMap)
    (r : Request) : (ProxyHandler config net keyIndex r).keyIndex = keyIndex := by
  cases hp : parseAuthorization (r.Header.Get (ascii "Authorization")) with
  | missing => unfold ProxyHandler; simp only [hp]
  | malformed => unfold ProxyHandler; simp only [hp]
  | fault => unfold ProxyHandler; simp only [hp]
  | token token =>
    obtain ⟨hshort, hlong⟩ := ProxyHandler_token config net keyIndex r token hp
    by_cases hl : token.length < 3
    · rw [hshort hl]
    · rw [hlong (by omega)]
      exact proxyForward_keyIndex _ _ _ _ _

/-! ## Masks and shifts as arithmetic -/

theorem and_07 (b : Nat) : b &&& 0x07 = b % 8 := Nat.and_pow_two_sub_one_eq_mod b 3
theorem and_0F (b : Nat) : b &&& 0x0F = b % 16 := Nat.and_pow_two_sub_one_eq_mod b 4
theorem and_1F (b : Nat) : b &&& 0x1F = b % 32 := Nat.and_pow_two_sub_one_eq_mod b 5
theorem and_3F (b : Nat) : b &&& 0x3F = b % 64 := Nat.and_pow_two_sub_one_eq_mod b 6
theorem or_low (i a b : Nat) (h : b < 2 ^ i) : a * 2 ^ i ||| b = a * 2 ^ i + b := by
  rw [Nat.mul_comm]; exact (Nat.mul_add_lt_is_or h a).symm
theorem or_80 (y : Nat) (h : y < 64) : 0x80 ||| y = 0x80 + y :=
  or_low 7 1 y (by omega)
theorem or_C0 (y : Nat) (h : y < 64) : 0xC0 ||| y = 0xC0 + y :=
  or_low 6 3 y (by omega)
theorem or_E0 (y : Nat) (h : y < 32) : 0xE0 ||| y = 0xE0 + y :=
  or_low 5 7 y (by omega)
theorem or_F0 (y : Nat) (h : y < 16) : 0xF0 ||| y = 0xF0 + y :=
  or_low 4 15 y (by omega)
theorem decode2 (p0 b1 : Nat) :
    (p0 &&& 0x1F) <<< 6 ||| (b1 &&& 0x3F) = p0 % 32 * 64 + b1 % 64 := by
  rw [and_1F, and_3F, Nat.shiftLeft_eq]
  exact or_low 6 _ _ (by omega)
theorem decode3 (p0 b1 b2 : Nat) :
    (p0 &&& 0x0F) <<< 12 ||| (b1 &&& 0x3F) <<< 6 ||| (b2 &&& 0x3F)
      = p0 % 16 * 4096 + b1 % 64 * 64 + b2 % 64 := by
  rw [and_0F, and_3F, and_3F, Nat.shiftLeft_eq, Nat.shiftLeft_eq]
  rw [or_low 12 _ _ (by omega)]
  have e : p0 % 16 * 2 ^ 12 + b1 % 64 * 2 ^ 6 = (p0 % 16 * 64 + b1 % 64) * 2 ^ 6 := by omega
  rw [e, or_low 6 _ _ (by omega)]
  omega
theorem decode4 (p0 b1 b2 b3 : Nat) :
    (p0 &&& 0x07) <<< 18 ||| (b1 &&& 0x3F) <<< 12 ||| (b2 &&& 0x3F) <<< 6 ||| (b3 &&& 0x3F)
      = p0 % 8 * 262144 + b1 % 64 * 4096 + b2 % 64 * 64 + b3 % 64 := by
  rw [and_07, and_3F, and_3F, and_3F, Nat.shiftLeft_eq, Nat.shiftLeft_eq, Nat.shiftLeft_eq]
  rw [or_low 18 _ _ (by omega)]
  have e : p0 % 8 * 2 ^ 18 + b1 % 64 * 2 ^ 12 = (p0 % 8 * 64 + b1 % 64) * 2 ^ 12 := by omega
  rw [e, or_low 12 _ _ (by omega)]
  have e2 : (p0 % 8 * 64 + b1 % 64) * 2 ^ 12 + b2 % 64 * 2 ^ 6
      = ((p0 % 8 * 64 + b1 % 64) * 64 + b2 % 64) * 2 ^ 6 := by omega
  rw [e2, or_low 6 _ _ (by omega)]
  omega

/-! ## The encoder -/

theorem utf8_eq1 (r : Nat) (h : r < 0x80) : utf8 r = [r] := by
  unfold utf8; rw [if_pos h]

theorem utf8_eq2 (r : Nat) (h1 : 0x80 ≤ r) (h2 : r < 0x800) :
    utf8 r = [0xC0 + r / 64, 0x80 + r % 64] := by
  unfold utf8; rw [if_neg (show ¬ r < 0x80 by omega), if_pos h2]

theorem utf8_eq3 (r : Nat) (h1 : 0x800 ≤ r) (h2 : r < 0x10000) :
    utf8 r = [0xE0 + r / 4096, 0x80 + r / 64 % 64, 0x80 + r % 64] := by
  unfold utf8
  rw [if_neg (show ¬ r < 0x80 by omega), if_neg (show ¬ r < 0x800 by omega), if_pos h2]

theorem utf8_eq4 (r : Nat) (h1 : 0x10000 ≤ r) :
    utf8 r = [0xF0 + r / 262144, 0x80 + r / 4096 % 64, 0x80 + r / 64 % 64, 0x80 + r % 64] := by
  unfold utf8
  rw [if_neg (show ¬ r < 0x80 by omega), if_neg (show ¬ r < 0x800 by omega),
    if_neg (show ¬ r < 0x10000 by omega)]

theorem encodedBytes_eq_utf8 (r : Nat) (h : IsScalar r) : encodedBytes r = utf8 r := by
  unfold IsScalar at h
  unfold encodedBytes
  by_cases h1 : r ≤ 0x7F
  · rw [if_pos h1, utf8_eq1 r (by omega), Nat.mod_eq_of_lt (by omega)]
  · rw [if_neg h1]
    by_cases h2 : r ≤ 0x7FF
    · rw [if_pos h2, utf8_eq2 r (by omega) (by omega)]
      rw [Nat.shiftRight_eq_div_pow, and_3F, or_C0 _ (by omega), or_80 _ (by omega)]
      have e1 : r / 2 ^ 6 % 256 = r / 64 := by omega
      have e2 : r % 256 % 64 = r % 64 := by omega
      rw [e1, e2]
    · rw [if_neg h2]
      have hr : (if r > MaxRune ∨ (0xD800 ≤ r ∧ r ≤ 0xDFFF) then RuneError else r) = r :=
        if_neg (by unfold MaxRune; omega)
      simp only [hr]
      by_cases h3 : r ≤ 0xFFFF
      · rw [if_pos h3, utf8_eq3 r (by omega) (by omega)]
        rw [Nat.shiftRight_eq_div_pow, Nat.shiftRight_eq_div_pow, and_3F, and_3F,
          or_E0 _ (by omega), or_80 _ (by omega), or_80 _ (by omega)]
        have e1 : r / 2 ^ 12 % 256 = r / 4096 := by omega
        have e2 : r / 2 ^ 6 % 256 % 64 = r / 64 % 64 := by omega
        have e3 : r % 256 % 64 = r % 64 := by omega
        rw [e1, e2, e3]
      · rw [if_neg h3, utf8_eq4 r (by omega)]
        rw [Nat.shiftRight_eq_div_pow, Nat.shiftRight_eq_div_pow, Nat.shiftRight_eq_div_pow,
          and_3F, and_3F, and_3F,
          or_F0 _ (by omega), or_80 _ (by omega), or_80 _ (by omega), or_80 _ (by omega)]
        have e0 : r / 2 ^ 18 % 256 = r / 262144 := by omega
        have e1 : r / 2 ^ 12 % 256 % 64 = r / 4096 % 64 := by omega
        have e2 : r / 2 ^ 6 % 256 % 64 = r / 64 % 64 := by omega
        have e3 : r % 256 % 64 = r % 64 := by omega
        rw [e0, e1, e2, e3]

theorem RuneLen_eq_length (r : Nat) (h : IsScalar r) : RuneLen r = ((utf8 r).length : Int) := by
  unfold IsScalar at h
  unfold RuneLen MaxRune
  by_cases h1 : r ≤ 0x7F
  · rw [if_pos h1, utf8_eq1 r (by omega)]; rfl
  · rw [if_neg h1]
    by_cases h2 : r ≤ 0x7FF
    · rw [if_pos h2, utf8_eq2 r (by omega) (by omega)]; rfl
    · rw [if_neg h2, if_neg (show ¬ (0xD800 ≤ r ∧ r ≤ 0xDFFF) by omega)]
      by_cases h3 : r ≤ 0xFFFF
      · rw [if_pos h3, utf8_eq3 r (by omega) (by omega)]; rfl
      · rw [if_neg h3, if_pos (show r ≤ 0x10FFFF by omega), utf8_eq4 r (by omega)]; rfl

theorem utf8_length_pos (r : Nat) : 1 ≤ (utf8 r).length := by
  unfold utf8
  split_ifs <;> simp

/-! ## The decoder -/

theorem first_invalid (p0 : Nat) (h : (0x80 ≤ p0 ∧ p0 < 0xC2) ∨ 0xF5 ≤ p0) : first p0 = 0xF1 := by
  unfold first
  split_ifs <;> omega

set_option maxRecDepth 100000 in
theorem first_info_aux : ∀ p0, p0 < 0xF5 → 0xC2 ≤ p0 →
    first p0 < 0xF0 ∧
    first p0 &&& 7 = (if p0 < 0xE0 then 2 else if p0 < 0xF0 then 3 else 4) ∧
    acceptRanges (first p0 >>> 4)
      = (if p0 = 0xE0 then 0xA0 else if p0 = 0xF0 then 0x90 else 0x80,
         if p0 = 0xED then 0x9F else if p0 = 0xF4 then 0x8F else 0xBF) := by
  decide!

theorem DecodeRune_invalid (p0 : Nat) (rest : GoString)
    (h : (0x80 ≤ p0 ∧ p0 < 0xC2) ∨ 0xF5 ≤ p0) : DecodeRune (p0 :: rest) = (RuneError, 1) := by
  unfold DecodeRune
  simp only [first_invalid p0 h]
  rfl

theorem DecodeRune_size2 (p0 : Nat) (rest : GoString) (h1 : 0xC2 ≤ p0) (h2 : p0 < 0xE0) :
    DecodeRune (p0 :: rest) =
      match rest with
      | [] => (RuneError, 1)
      | b1 :: _ =>
        if b1 < 0x80 ∨ 0xBF < b1 then (RuneError, 1) else (p0 % 32 * 64 + b1 % 64, 2) := by
  obtain ⟨hx, hsz, hacc⟩ := first_info_aux p0 (by omega) h1
  rw [if_pos h2] at hsz
  rw [if_neg (show ¬ p0 = 0xE0 by omega), if_neg (show ¬ p0 = 0xF0 by omega),
    if_neg (show ¬ p0 = 0xED by omega), if_neg (show ¬ p0 = 0xF4 by omega)] at hacc
  unfold DecodeRune
  simp only [ge_iff_le, if_neg (Nat.not_le.mpr hx), hsz, hacc, decode2]
  cases rest with
  | nil => simp
  | cons b1 tl => simp

theorem DecodeRune_size3 (p0 : Nat) (rest : GoString) (h1 : 0xE0 ≤ p0) (h2 : p0 < 0xF0) :
    DecodeRune (p0 :: rest) =
      match rest with
      | b1 :: b2 :: _ =>
        if b1 < (if p0 = 0xE0 then 0xA0 else 0x80) ∨ (if p0 = 0xED then 0x9F else 0xBF) < b1
        then (RuneError, 1)
        else if b2 < 0x80 ∨ 0xBF < b2 then (RuneError, 1)
        else (p0 % 16 * 4096 + b1 % 64 * 64 + b2 % 64, 3)
      | _ => (RuneError, 1) := by
  obtain ⟨hx, hsz, hacc⟩ := first_info_aux p0 (by omega) (by omega)
  rw [if_neg (show ¬ p0 < 0xE0 by omega), if_pos h2] at hsz
  rw [if_neg (show ¬ p0 = 0xF4 by omega)] at hacc
  have hacc2 : acceptRanges (first p0 >>> 4)
      = (if p0 = 0xE0 then 0xA0 else 0x80, if p0 = 0xED then 0x9F else 0xBF) := by
    rw [hacc]; congr 1; split_ifs <;> first | rfl | omega
  unfold DecodeRune
  simp only [ge_iff_le, if_neg (Nat.not_le.mpr hx), hsz, hacc2, decode3]
  match rest with
  | [] => simp
  | [b1] => simp
  | b1 :: b2 :: tl => simp

theorem DecodeRune_size4 (p0 : Nat) (rest : GoString) (h1 : 0xF0 ≤ p0) (h2 : p0 ≤ 0xF4) :
    DecodeRune (p0 :: rest) =
      match rest with
      | b1 :: b2 :: b3 :: _ =>
        if b1 < (if p0 = 0xF0 then 0x90 else 0x80) ∨ (if p0 = 0xF4 then 0x8F else 0xBF) < b1
        then (RuneError, 1)
        else if b2 < 0x80 ∨ 0xBF < b2 then (RuneError, 1)
        else if b3 < 0x80 ∨ 0xBF < b3 then (RuneError, 1)
        else (p0 % 8 * 262144 + b1 % 64 * 4096 + b2 % 64 * 64 + b3 % 64, 4)
      | _ => (RuneError, 1) := by
  obtain ⟨hx, hsz, hacc⟩ := first_info_aux p0 (by omega) (by omega)
  rw [if_neg (show ¬ p0 < 0xE0 by omega), if_neg (show ¬ p0 < 0xF0 by omega)] at hsz
  rw [if_neg (show ¬ p0 = 0xE0 by omega), if_neg (show ¬ p0 = 0xED by omega)] at hacc
  unfold DecodeRune
  simp only [ge_iff_le, if_neg (Nat.not_le.mpr hx), hsz, hacc, decode4]
  match rest with
  | [] => simp
  | [b1] => simp
  | [b1, b2] => simp
  | b1 :: b2 :: b3 :: tl => simp

theorem ReadRune_ge (p0 : Nat) (rest : GoString) (h : 0x80 ≤ p0) :
    ReadRune (p0 :: rest) = DecodeRune (p0 :: rest) := by
  unfold ReadRune
  simp only
  rw [if_neg (by omega)]

/-- Decoding after encoding: the reader returns a scalar value and the width of its
encoding from bytes that start with the encoding. -/
theorem ReadRune_utf8 (r : Nat) (h : IsScalar r) (rest : GoString) :
    ReadRune (utf8 r ++ rest) = (r, (utf8 r).length) := by
  unfold IsScalar at h
  by_cases h1 : r < 0x80
  · rw [utf8_eq1 r h1]
    unfold ReadRune
    simp [h1]
  · by_cases h2 : r < 0x800
    · rw [utf8_eq2 r (by omega) h2]
      simp only [List.cons_append, List.nil_append, List.length_cons, List.length_nil]
      rw [ReadRune_ge _ _ (by omega), DecodeRune_size2 _ _ (by omega) (by omega)]
      simp only
      rw [if_neg (by omega)]
      congr 1
      omega
    · by_cases h3 : r < 0x10000
      · rw [utf8_eq3 r (by omega) h3]
        simp only [List.cons_append, List.nil_append, List.length_cons, List.length_nil]
        rw [ReadRune_ge _ _ (by omega), DecodeRune_size3 _ _ (by omega) (by omega)]
        simp only
        rw [if_neg (by split_ifs <;> omega), if_neg (by omega)]
        congr 1
        omega
      · rw [utf8_eq4 r (by omega)]
        simp only [List.cons_append, List.nil_append, List.length_cons, List.length_nil]
        rw [ReadRune_ge _ _ (by omega), DecodeRune_size4 _ _ (by omega) (by omega)]
        simp only
        rw [if_neg (by split_ifs <;> omega), if_neg (by omega), if_neg (by omega)]
        congr 1
        omega

/-- Encoding after decoding: either the reader reports an invalid byte, or the bytes
start with the encoding of a scalar value. -/
theorem ReadRune_error_or_valid (p0 : Nat) (rest : GoString) :
    ReadRune (p0 :: rest) = (RuneError, 1) ∨
      ∃ r tail, IsScalar r ∧ p0 :: rest = utf8 r ++ tail := by
  by_cases h1 : p0 < 0x80
  · right
    exact ⟨p0, rest, Or.inl (by omega), by rw [utf8_eq1 p0 h1]; rfl⟩
  · rw [ReadRune_ge _ _ (by omega)]
    by_cases hbad : (0x80 ≤ p0 ∧ p0 < 0xC2) ∨ 0xF5 ≤ p0
    · left; exact DecodeRune_invalid p0 rest hbad
    · by_cases h2 : p0 < 0xE0
      · rw [DecodeRune_size2 _ _ (by omega) h2]
        match rest with
        | [] => left; rfl
        | b1 :: tl =>
          simp only
          by_cases hb : b1 < 0x80 ∨ 0xBF < b1
          · left; rw [if_pos hb]
          · right
            refine ⟨p0 % 32 * 64 + b1 % 64, tl, Or.inl (by omega), ?_⟩
            rw [utf8_eq2 _ (by omega) (by omega)]
            simp only [List.cons_append, List.nil_append, List.cons.injEq, and_true]
            omega
      · by_cases h3 : p0 < 0xF0
        · rw [DecodeRune_size3 _ _ (by omega) h3]
          match rest with
          | [] => left; rfl
          | [b1] => left; rfl
          | b1 :: b2 :: tl =>
            simp only
            by_cases hb1 : b1 < (if p0 = 0xE0 then 0xA0 else 0x80)
                ∨ (if p0 = 0xED then 0x9F else 0xBF) < b1
            · left; rw [if_pos hb1]
            · rw [if_neg hb1]
              by_cases hb2 : b2 < 0x80 ∨ 0xBF < b2
              · left; rw [if_pos hb2]
              · right
                have hlo : (if p0 = 0xE0 then 0xA0 else 0x80) ≤ b1 := by omega
                have hhi : b1 ≤ (if p0 = 0xED then 0x9F else 0xBF) := by omega
                have hlo2 : 0x80 ≤ b1 ∧ (p0 = 0xE0 → 0xA0 ≤ b1) := by
                  split_ifs at hlo <;> omega
                have hhi2 : b1 ≤ 0xBF ∧ (p0 = 0xED → b1 ≤ 0x9F) := by
                  split_ifs at hhi <;> omega
                refine ⟨p0 % 16 * 4096 + b1 % 64 * 64 + b2 % 64, tl, ?_, ?_⟩
                · unfold IsScalar; omega
                · rw [utf8_eq3 _ (by omega) (by omega)]
                  simp only [List.cons_append, List.nil_append, List.cons.injEq, and_true]
                  omega
        · rw [DecodeRune_size4 _ _ (by omega) (by omega)]
          match rest with
          | [] => left; rfl
          | [b1] => left; rfl
          | [b1, b2] => left; rfl
          | b1 :: b2 :: b3 :: tl =>
            simp only
            by_cases hb1 : b1 < (if p0 = 0xF0 then 0x90 else 0x80)
                ∨ (if p0 = 0xF4 then 0x8F else 0xBF) < b1
            · left; rw [if_pos hb1]
            · rw [if_neg hb1]
              by_cases hb2 : b2 < 0x80 ∨ 0xBF < b2
              · left; rw [if_pos hb2]
              · rw [if_neg hb2]
                by_cases hb3 : b3 < 0x80 ∨ 0xBF < b3
                · left; rw [if_pos hb3]
                · right
                  have hlo : (if p0 = 0xF0 then 0x90 else 0x80) ≤ b1 := by omega
                  have hhi : b1 ≤ (if p0 = 0xF4 then 0x8F else 0xBF) := by omega
                  have hlo2 : 0x80 ≤ b1 ∧ (p0 = 0xF0 → 0x90 ≤ b1) := by
                    split_ifs at hlo <;> omega
                  have hhi2 : b1 ≤ 0xBF ∧ (p0 = 0xF4 → b1 ≤ 0x8F) := by
                    split_ifs at hhi <;> omega
                  refine ⟨p0 % 8 * 262144 + b1 % 64 * 4096 + b2 % 64 * 64 + b3 % 64, tl, ?_, ?_⟩
                  · unfold IsScalar; omega
                  · rw [utf8_eq4 _ (by omega)]
                    simp only [List.cons_append, List.nil_append, List.cons.injEq, and_true]
                    omega

/-! ## The relay loop -/

theorem makeBytes_scalar (r : Nat) (h : IsScalar r) :
    makeBytes (RuneLen r) = some (List.replicate (utf8 r).length 0) := by
  unfold makeBytes
  rw [RuneLen_eq_length r h, if_neg (by omega)]
  rfl

theorem EncodeRune_scalar (r : Nat) (h : IsScalar r) :
    EncodeRune (List.replicate (utf8 r).length 0) r = some (utf8 r) := by
  unfold EncodeRune
  simp only [encodedBytes_eq_utf8 r h, List.length_replicate, Nat.lt_irrefl, if_false]
  rw [List.drop_of_length_le (by simp), List.append_nil]

/-- One iteration of the loop on unread bytes from which the reader returns a scalar
value: its encoding is written, the writer is flushed, the bytes read are consumed. -/
theorem writeLoop_step (fuel : Nat) (w : ResponseWriter) (p : GoString) (e : Option GoString)
    (c n : Nat) (hp : p ≠ []) (hr : ReadRune p = (c, n)) (hc : IsScalar c) :
    writeLoop (fuel + 1) w ⟨p, e⟩ = writeLoop fuel ((w.Write (utf8 c)).Flush) ⟨p.drop n, e⟩ := by
  match p, hp with
  | p0 :: rest, _ =>
    rw [writeLoop]
    simp only [hr, makeBytes_scalar c hc, EncodeRune_scalar c hc]

theorem emit_cons (w : ResponseWriter) (r : Nat) (rs : List Nat) :
    emit w (r :: rs) = emit ((w.Write (utf8 r)).Flush) rs := rfl

theorem emit_events (rs : List Nat) : ∀ w : ResponseWriter,
    (emit w rs).events = w.events ++ rs.flatMap (fun r => [Event.write (utf8 r), Event.flush]) := by
  induction rs with
  | nil => intro w; simp [emit]
  | cons r rs ih =>
    intro w
    rw [emit_cons, ih]
    have : ((w.Write (utf8 r)).Flush).events = w.events ++ [Event.write (utf8 r), Event.flush] := by
      obtain ⟨st, ev⟩ := w
      cases st <;> simp [ResponseWriter.Flush, ResponseWriter.Write, ResponseWriter.WriteHeader]
    rw [this]
    simp [List.flatMap_cons]

theorem writes_relayed (rs : List Nat) :
    writes (rs.flatMap (fun r => [Event.write (utf8 r), Event.flush])) = rs.map utf8 := by
  induction rs with
  | nil => rfl
  | cons r rs ih =>
    rw [List.flatMap_cons]
    change writes (Event.write (utf8 r) :: Event.flush :: rs.flatMap _) = _
    simp only [writes, List.map_cons, ih]

theorem flatten_map_utf8 (rs : List Nat) : (rs.map utf8).flatten = utf8String rs := by
  unfold utf8String
  induction rs with
  | nil => rfl
  | cons r rs ih => simp [List.flatMap_cons, ih]

theorem utf8String_cons (r : Nat) (rs : List Nat) :
    utf8String (r :: rs) = utf8 r ++ utf8String rs := by
  simp [utf8String, List.flatMap_cons]

/-- The loop on the encoding of a string of scalar values. -/
theorem writeLoop_utf8String (rs : List Nat) : ∀ (fuel : Nat) (w : ResponseWriter),
    (utf8String rs).length < fuel → (∀ r ∈ rs, IsScalar r) →
    writeLoop fuel w ⟨utf8String rs, none⟩ = ⟨emit w rs, Outcome.returned⟩ := by
  induction rs with
  | nil =>
    intro fuel w hf _
    cases fuel with
    | zero => simp at hf
    | succ f => rfl
  | cons r rs ih =>
    intro fuel w hf hs
    have hr : IsScalar r := hs r (List.mem_cons_self _ _)
    have hpos := utf8_length_pos r
    rw [utf8String_cons] at hf ⊢
    rw [List.length_append] at hf
    cases fuel with
    | zero => omega
    | succ f =>
      have hne : utf8 r ++ utf8String rs ≠ [] := by
        intro hnil
        have := congrArg List.length hnil
        rw [List.length_append, List.length_nil] at this
        omega
      rw [writeLoop_step f w _ none r (utf8 r).length hne (ReadRune_utf8 r hr _) hr,
        List.drop_left, emit_cons]
      exact ih f _ (by omega) (fun x hx => hs x (List.mem_cons_of_mem _ hx))

theorem utf8_RuneError : utf8 0xFFFD = [0xEF, 0xBF, 0xBD] := by decide

/-- The loop on arbitrary bytes read to a clean end of stream. -/
theorem writeLoop_lossy : ∀ (fuel : Nat) (body : GoString) (w : ResponseWriter),
    body.length < fuel →
    ∃ rs, DecodesLossy body rs ∧ writeLoop fuel w ⟨body, none⟩ = ⟨emit w rs, Outcome.returned⟩ := by
  intro fuel
  induction fuel with
  | zero => intro body w hf; omega
  | succ f ih =>
    intro body w hf
    match body with
    | [] => exact ⟨[], DecodesLossy.done, rfl⟩
    | p0 :: rest =>
      by_cases hex : ∃ r tail, IsScalar r ∧ p0 :: rest = utf8 r ++ tail
      · obtain ⟨r, tail, hr, hp⟩ := hex
        have hpos := utf8_length_pos r
        have hlen : tail.length < f := by
          have := congrArg List.length hp
          rw [List.length_append] at this
          simp only [List.length_cons] at this hf
          omega
        obtain ⟨rs, hd, hrun⟩ := ih tail ((w.Write (utf8 r)).Flush) hlen
        refine ⟨r :: rs, ?_, ?_⟩
        · rw [hp]; exact DecodesLossy.scalar r tail rs hr hd
        · rw [writeLoop_step f w _ none r (utf8 r).length (by simp)
            (by rw [hp]; exact ReadRune_utf8 r hr tail) hr, hp, List.drop_left, emit_cons]
          exact hrun
      · have herr : ReadRune (p0 :: rest) = (RuneError, 1) := by
          rcases ReadRune_error_or_valid p0 rest with h | h
          · exact h
          · exact absurd h hex
        have hsc : IsScalar 0xFFFD := by decide
        have hlen : rest.length < f := by simp only [List.length_cons] at hf; omega
        obtain ⟨rs, hd, hrun⟩ := ih rest ((w.Write (utf8 0xFFFD)).Flush) hlen
        refine ⟨0xFFFD :: rs, ?_, ?_⟩
        · refine DecodesLossy.replaced p0 rest rs ?_ hd
          intro r tail hr hp
          exact hex ⟨r, tail, hr, hp⟩
        · rw [writeLoop_step f w _ none 0xFFFD 1 (by simp) herr hsc, emit_cons]
          exact hrun

theorem utf8String_length_cons (r : Nat) (rs : List Nat) :
    (utf8String (r :: rs)).length = (utf8 r).length + (utf8String rs).length := by
  rw [utf8String_cons, List.length_append]

/-- Decoding with replacement never shortens: the encoding of the decoded string is at
least as long as the bytes, and of the same length only when no byte was replaced. -/
theorem DecodesLossy_length (body : GoString) (rs : List Nat) (h : DecodesLossy body rs) :
    body.length ≤ (utf8String rs).length ∧
    ((utf8String rs).length = body.length → (∀ r ∈ rs, IsScalar r) ∧ body = utf8String rs) := by
  induction h with
  | done => exact ⟨Nat.le_refl _, fun _ => ⟨fun r hr => (by cases hr), rfl⟩⟩
  | scalar r rest rs hr _ ih =>
    obtain ⟨ih1, ih2⟩ := ih
    rw [utf8String_length_cons, List.length_append]
    refine ⟨by omega, fun heq => ?_⟩
    obtain ⟨hs, hb⟩ := ih2 (by omega)
    refine ⟨?_, (by rw [utf8String_cons, ← hb])⟩
    intro x hx
    rcases List.mem_cons.mp hx with rfl | hx
    · exact hr
    · exact hs x hx
  | replaced b rest rs _ _ ih =>
    obtain ⟨ih1, _⟩ := ih
    rw [utf8String_length_cons, utf8_RuneError]
    simp only [List.length_cons, List.length_nil]
    exact ⟨by omega, fun heq => by omega⟩

theorem RuneLen_ReadRune_pos (p : GoString) (hp : p ≠ []) : 0 < RuneLen (ReadRune p).1 := by
  match p, hp with
  | p0 :: rest, _ =>
    have key : ∀ r, IsScalar r → 0 < RuneLen r := by
      intro r hr
      rw [RuneLen_eq_length r hr]
      have := utf8_length_pos r
      omega
    rcases ReadRune_error_or_valid p0 rest with h | ⟨r, tail, hr, hp⟩
    · rw [h]; exact key _ (by decide)
    · rw [hp, ReadRune_utf8 r hr tail]; exact key r hr

theorem writeCharByChar_emit (w : ResponseWriter) (body : GoString) :
    ∃ rs, DecodesLossy body rs ∧
      writeCharByChar w ⟨body, none⟩ = ⟨emit w rs, Outcome.returned⟩ :=
  writeLoop_lossy (body.length + 1) body w (Nat.lt_succ_self _)

theorem relayed_emit (w : ResponseWriter) (rs : List Nat) :
    (writes ((emit w rs).events.drop w.events.length)).flatten = utf8String rs := by
  rw [emit_events, List.drop_left, writes_relayed, flatten_map_utf8]

/-! ## Theorems on the streaming relay -/

/-- C6: for every string of Unicode scalar values, on its UTF-8 encoding read to a clean
end of stream `writeCharByChar` returns after exactly one `Write` followed by one `Flush`
per scalar value, in order, each `Write` carrying the complete UTF-8 encoding of that
one value, and the written bytes concatenated are the body. -/
theorem writeCharByChar_valid (w : ResponseWriter) (rs : List Nat)
    (h : ∀ r ∈ rs, IsScalar r) :
    (writeCharByChar w ⟨utf8String rs, none⟩).outcome = Outcome.returned ∧
    (writeCharByChar w ⟨utf8String rs, none⟩).w.events
      = w.events ++ rs.flatMap (fun r => [Event.write (utf8 r), Event.flush]) ∧
    (writes ((writeCharByChar w ⟨utf8String rs, none⟩).w.events.drop w.events.length)).flatten
      = utf8String rs := by
  have hrun : writeCharByChar w ⟨utf8String rs, none⟩ = ⟨emit w rs, Outcome.returned⟩ :=
    writeLoop_utf8String rs _ w (Nat.lt_succ_self _) h
  rw [hrun]
  exact ⟨rfl, emit_events rs w, relayed_emit w rs⟩

/-- Witness of C6: a body with characters of one, two, three and four bytes
(`A`, `Ω`, `€`, U+1F600). -/
theorem writeCharByChar_valid_witness :
    (∀ r ∈ [0x41, 0x3A9, 0x20AC, 0x1F600], IsScalar r) ∧
    (writeCharByChar ⟨some 200, []⟩ ⟨utf8String [0x41, 0x3A9, 0x20AC, 0x1F600], none⟩).w.events
      = [] ++ [0x41, 0x3A9, 0x20AC, 0x1F600].flatMap
          (fun r => [Event.write (utf8 r), Event.flush]) :=
  ⟨by decide, (writeCharByChar_valid ⟨some 200, []⟩ [0x41, 0x3A9, 0x20AC, 0x1F600]
    (by decide)).2.1⟩

/-- C10: for every body read to a clean end of stream, `utf8.RuneLen` is positive on
every rune `ReadRune` returns, so no buffer allocation faults; `writeCharByChar` returns
after writing, rune by rune, the UTF-8 encoding of the body decoded with replacement,
where a byte that starts no valid sequence becomes U+FFFD, written as `EF BF BD`; and
the bytes written equal the body exactly when the body is valid UTF-8. -/
theorem writeCharByChar_lossy (w : ResponseWriter) (body : GoString) :
    (∀ p : GoString, p ≠ [] → 0 < RuneLen (ReadRune p).1) ∧
    utf8 0xFFFD = [0xEF, 0xBF, 0xBD] ∧
    (∃ rs, DecodesLossy body rs ∧
      (writeCharByChar w ⟨body, none⟩).outcome = Outcome.returned ∧
      (writeCharByChar w ⟨body, none⟩).w.events
        = w.events ++ rs.flatMap (fun r => [Event.write (utf8 r), Event.flush]) ∧
      (writes ((writeCharByChar w ⟨body, none⟩).w.events.drop w.events.length)).flatten
        = utf8String rs) ∧
    ((writes ((writeCharByChar w ⟨body, none⟩).w.events.drop w.events.length)).flatten = body
      ↔ ValidUTF8 body) := by
  refine ⟨RuneLen_ReadRune_pos, utf8_RuneError, ?_, ?_⟩
  · obtain ⟨rs, hd, hrun⟩ := writeCharByChar_emit w body
    refine ⟨rs, hd, ?_⟩
    rw [hrun]
    exact ⟨rfl, emit_events rs w, relayed_emit w rs⟩
  · constructor
    · intro heq
      obtain ⟨rs, hd, hrun⟩ := writeCharByChar_emit w body
      rw [hrun] at heq
      simp only at heq
      rw [relayed_emit] at heq
      obtain ⟨hs, hb⟩ := (DecodesLossy_length body rs hd).2 (by rw [heq])
      exact ⟨rs, hs, hb⟩
    · rintro ⟨rs, hs, rfl⟩
      exact (writeCharByChar_valid w rs hs).2.2

end Proxy
